import Mathlib

/-!
Verification of the diff/status parsing and rendering core of the
GeminiGitAgent frontend (DiffViewer.jsx and StatusFeed.jsx), embedded
shallowly: JavaScript strings become `List Char` internally, the
line-by-line mutable loop of `parseDiff` becomes a fold over an explicit
`ParseState`, and the JSX renderer becomes a function into a list of
abstract render records.
-/

namespace GitAgent

/-- One classified line of a unified diff, mirroring the objects pushed by
`parseDiff` in DiffViewer.jsx.  Fields that are `null` in the source are
simply absent from the corresponding constructor. -/
inductive DiffLine where
  | added (content : String) (newLineNum : Nat)
  | removed (content : String) (oldLineNum : Nat)
  | context (content : String) (oldLineNum : Nat) (newLineNum : Nat)
  | marker (content : String)
deriving DecidableEq, Repr

/-- One hunk of a unified diff: `{ oldStart, newStart, lines }`. -/
structure Hunk where
  oldStart : Nat
  newStart : Nat
  lines : List DiffLine
deriving DecidableEq, Repr

/-- The mutable state of the `parseDiff` loop: hunks already closed, the
currently open hunk (`currentHunk` in the source, `none` when null), and
the two line-number counters. -/
structure ParseState where
  done : List Hunk
  cur : Option Hunk
  oldLineNum : Nat
  newLineNum : Nat
deriving DecidableEq, Repr

/-- `startsWithL p l` is JavaScript `l.startsWith(p)` on char lists. -/
def startsWithL : List Char → List Char → Bool
  | [], _ => true
  | _ :: _, [] => false
  | p :: ps, c :: cs => p == c && startsWithL ps cs

/-- JavaScript `s.split('\n')`: always returns at least one (possibly
empty) piece; a trailing newline yields a trailing empty piece. -/
def splitLines : List Char → List (List Char)
  | [] => [[]]
  | c :: cs =>
    let r := splitLines cs
    if c == '\n' then [] :: r
    else
      match r with
      | [] => [[c]]
      | l :: ls => (c :: l) :: ls

/-- Maximal munch of ASCII digits, as the greedy `\d+` of the hunk-header
regex; returns the digit run and the rest. -/
def takeDigits : List Char → List Char × List Char
  | [] => ([], [])
  | c :: cs =>
    if c.isDigit then
      let p := takeDigits cs
      (c :: p.1, p.2)
    else ([], c :: cs)

/-- Numeric value of a digit run (`parseInt` on an all-digit string). -/
def natOfDigits (l : List Char) : Nat :=
  l.foldl (fun a c => a * 10 + (c.toNat - 48)) 0

/-- Strip an exact literal from the front, or fail. -/
def dropPre : List Char → List Char → Option (List Char)
  | [], l => some l
  | _ :: _, [] => none
  | p :: ps, c :: cs => if p == c then dropPre ps cs else none

/-- The optional group `(?:,(\d+))?` of the hunk-header regex: consumed
exactly when a comma is directly followed by at least one digit (otherwise
the group matches empty and the input is left untouched). -/
def skipCount (l : List Char) : List Char :=
  match l with
  | ',' :: rest =>
    let p := takeDigits rest
    if p.1.isEmpty then l else p.2
  | _ => l

/-- Match the regex `@@ -(\d+)(?:,(\d+))? \+(\d+)(?:,(\d+))? @@` anchored
at the start of `l`, returning the two captured start numbers.  Greedy
digit munching is equivalent to the backtracking semantics here because a
digit can never stand where the pattern next requires a space or comma. -/
def matchHunkAt (l : List Char) : Option (Nat × Nat) :=
  match dropPre "@@ -".data l with
  | none => none
  | some r1 =>
    let p1 := takeDigits r1
    if p1.1.isEmpty then none
    else
      match dropPre " +".data (skipCount p1.2) with
      | none => none
      | some r4 =>
        let p3 := takeDigits r4
        if p3.1.isEmpty then none
        else
          match dropPre " @@".data (skipCount p3.2) with
          | none => none
          | some _ => some (natOfDigits p1.1, natOfDigits p3.1)

/-- Unanchored search, leftmost match first: JavaScript `line.match(re)`
for a regex without `^`. -/
def searchHunk : List Char → Option (Nat × Nat)
  | [] => none
  | c :: cs =>
    match matchHunkAt (c :: cs) with
    | some r => some r
    | none => searchHunk cs

/-- Initial loop state: no hunks, no current hunk, both counters 0. -/
def initState : ParseState := ⟨[], none, 0, 0⟩

/-- The body of the `for` loop of `parseDiff` for one line. -/
def processLine (st : ParseState) (line : List Char) : ParseState :=
  if startsWithL "diff --git".data line || startsWithL "index ".data line
      || startsWithL "---".data line || startsWithL "+++".data line then
    st
  else if startsWithL "@@".data line then
    match searchHunk line with
    | some starts =>
      { done := st.done ++ st.cur.toList
        cur := some ⟨starts.1, starts.2, []⟩
        oldLineNum := starts.1
        newLineNum := starts.2 }
    | none => st
  else
    match st.cur with
    | none => st
    | some h =>
      if startsWithL "+".data line && !startsWithL "+++".data line then
        { st with
          cur := some { h with lines := h.lines ++ [.added (String.mk (line.drop 1)) st.newLineNum] }
          newLineNum := st.newLineNum + 1 }
      else if startsWithL "-".data line && !startsWithL "---".data line then
        { st with
          cur := some { h with lines := h.lines ++ [.removed (String.mk (line.drop 1)) st.oldLineNum] }
          oldLineNum := st.oldLineNum + 1 }
      else if startsWithL " ".data line then
        { st with
          cur := some { h with lines := h.lines ++ [.context (String.mk (line.drop 1)) st.oldLineNum st.newLineNum] }
          oldLineNum := st.oldLineNum + 1
          newLineNum := st.newLineNum + 1 }
      else if startsWithL "\\".data line then
        { st with
          cur := some { h with lines := h.lines ++ [.marker (String.mk line)] } }
      else st

/-- Hunks in output order: the closed ones followed by the still-open one.
In the source the open hunk is already inside `result` and is mutated in
place; flushing it at the end is observationally the same. -/
def finishState (st : ParseState) : List Hunk :=
  st.done ++ st.cur.toList

/-- Run the `parseDiff` loop over a list of lines. -/
def parseDiffLines (ls : List (List Char)) : List Hunk :=
  finishState (ls.foldl processLine initState)

/-- `parseDiff` of DiffViewer.jsx: early-return `[]` on the empty (falsy)
string, otherwise split on newline and run the loop. -/
def parseDiff (s : String) : List Hunk :=
  if s == "" then [] else parseDiffLines (splitLines s.data)

/-- JavaScript `String.prototype.trim` whitespace (the characters that can
occur in ASCII/latin git output, plus the BOM): `line.trim()` is truthy
exactly when the line has a character outside this set. -/
def jsWhite (c : Char) : Bool :=
  c == ' ' || c == '\t' || c == '\n' || c == '\r' ||
  c == '\x0b' || c == '\x0c' || c == '\u00A0' || c == '\uFEFF'

/-- One porcelain status record, mirroring the object literal built by
`parseStatus` in StatusFeed.jsx.  `status` is `Option Char` because the
source computes it by indexing (`code[1] || code[0]`), which yields
`undefined` (here `none`) only on an empty code. -/
structure StatusEntry where
  code : String
  path : String
  isStaged : Bool
  status : Option Char
deriving DecidableEq, Repr

/-- The quote-stripping step: `path.startsWith('"') && path.endsWith('"')`
then `path.slice(1, -1)` (a single `"` satisfies both checks in JS and
becomes the empty string, as here). -/
def stripQuotes (p : List Char) : List Char :=
  if p.head? == some '"' && p.getLast? == some '"' then (p.drop 1).dropLast
  else p

/-- The body of the `map` in `parseStatus` for one non-blank line. -/
def mkStatusEntry (line : List Char) : StatusEntry :=
  let code := line.take 2
  let path := stripQuotes (line.drop 3)
  let isStaged : Bool :=
    match code.head? with
    | some c => (c != ' ') && (c != '?')
    | none => true
  let status : Option Char :=
    if isStaged then code.head?
    else
      match code.get? 1 with
      | some c => some c
      | none => code.head?
  ⟨String.mk code, String.mk path, isStaged, status⟩

/-- `parseStatus` of StatusFeed.jsx: early-return `[]` on the empty
(falsy) string, split on newline, keep lines whose trim is truthy, map
each to a record. -/
def parseStatus (raw : String) : List StatusEntry :=
  if raw == "" then []
  else ((splitLines raw.data).filter (fun l => l.any (fun c => !jsWhite c))).map mkStatusEntry

/-- One record of the abstract render model: each constructor is one of
the line rows or one-off message blocks emitted by `renderDiff` /
`renderNewFile` in DiffViewer.jsx. -/
inductive RenderRec where
  | loadingMsg
  | errorMsg (msg : String)
  | newFileHeader
  | emptyFileMsg
  | addedLine (num : Nat) (content : String)
  | deletedMsg
  | plainLine (num : Nat) (content : String)
  | noChangesMsg
  | noChangesToDisplayMsg
  | hunkLine (dl : DiffLine)
deriving DecidableEq, Repr

/-- Recognize the `addedLine` records of the render model. -/
def RenderRec.isAdded : RenderRec → Bool
  | .addedLine _ _ => true
  | _ => false

/-- The `line || ' '` substitution the JSX applies to keep empty lines one
row tall: an empty line is displayed as a single space. -/
def dispContentL (l : List Char) : String :=
  if l.isEmpty then " " else String.mk l

/-- The `lines.map((line, idx) => ...)` of `renderNewFile`: one `added`
row per split piece, numbered `idx + 1` from `n`. -/
def addedFrom (n : Nat) : List (List Char) → List RenderRec
  | [] => []
  | l :: ls => .addedLine n (dispContentL l) :: addedFrom (n + 1) ls

/-- The plain-content fallback rows of `renderDiff` (file content shown
with sequential numbers and no diff coloring). -/
def plainFrom (n : Nat) : List (List Char) → List RenderRec
  | [] => []
  | l :: ls => .plainLine n (dispContentL l) :: plainFrom (n + 1) ls

/-- `renderNewFile` of DiffViewer.jsx: empty-file message when the content
is falsy and not loading, otherwise the "New file" banner followed by
every split piece of the content as an `added` row numbered from 1. -/
def renderNewFile (loading : Bool) (fileContent : String) : List RenderRec :=
  if fileContent == "" && !loading then [.emptyFileMsg]
  else
    let lines := splitLines fileContent.data
    RenderRec.newFileHeader ::
      (if lines.isEmpty then [.emptyFileMsg] else addedFrom 1 lines)

/-- `renderDiff` of DiffViewer.jsx as a pure function of the component
state it reads (`loading`, `error`, `isNewFile`, `isDeleted`, `diff`,
`fileContent`).  `error = none` stands for the falsy error state.  The
branch order and the exact conditions follow the source: note that the
deleted-file branch tests `!diff` (empty diff TEXT), not empty hunks. -/
def renderDiff (loading : Bool) (error : Option String) (isNewFile isDeleted : Bool)
    (diff fileContent : String) : List RenderRec :=
  if loading then [.loadingMsg]
  else
    match error with
    | some e => [.errorMsg e]
    | none =>
      if isNewFile && !isDeleted then renderNewFile loading fileContent
      else if isDeleted && diff == "" then [.deletedMsg]
      else if diff == "" && !isNewFile && !isDeleted then
        (if fileContent == "" then [.noChangesMsg]
         else plainFrom 1 (splitLines fileContent.data))
      else
        let hunks := parseDiff diff
        if hunks.isEmpty then [.noChangesToDisplayMsg]
        else hunks.foldr (fun h acc => h.lines.map RenderRec.hunkLine ++ acc) []

/-! ### Helper lemmas shared by the claim theorems -/

theorem startsWithL_cons (p : Char) (ps : List Char) (c : Char) (cs : List Char) :
    startsWithL (p :: ps) (c :: cs) = ((p == c) && startsWithL ps cs) := rfl

/-- A line with no `@@` prefix leaves the initial state untouched: it is
either metadata (skipped) or falls through to the `currentHunk` test with
no hunk open. -/
theorem processLine_initState_drop (l : List Char) (h : startsWithL "@@".data l = false) :
    processLine initState l = initState := by
  unfold processLine
  split
  · rfl
  · rw [h]
    rfl

end GitAgent

namespace GitAgent

/-- C1: on the single-hunk diff `@@ -5,3 +5,4 @@` / ` ctx` / `-old` /
`+new1` / `+new2`, `parseDiff` returns exactly one hunk with
`oldStart = 5`, `newStart = 5`, whose lines are a context line (5, 5,
"ctx"), a removed line (6, "old"), an added line (6, "new1") and an added
line (7, "new2"), in that order. -/
theorem parseDiff_single_hunk_example :
    parseDiff "@@ -5,3 +5,4 @@\n ctx\n-old\n+new1\n+new2" =
      [⟨5, 5, [.context "ctx" 5 5, .removed "old" 6, .added "new1" 6, .added "new2" 7]⟩] := by
  decide

/-- C5: `parseDiff` and `parseStatus` are total functions of the input
string: on every input, including the empty and arbitrarily malformed
ones, each terminates normally with a (possibly empty) list.  Exceptions
have no counterpart because the embedding of both parsers is built from
total operations only, exactly as the source uses no throwing construct. -/
theorem parsers_total (s : String) :
    ∃ hs : List Hunk, ∃ es : List StatusEntry, parseDiff s = hs ∧ parseStatus s = es :=
  ⟨parseDiff s, parseStatus s, rfl, rfl⟩

/-- Witness for C5 at the empty string. -/
theorem parsers_total_witness :
    ∃ hs : List Hunk, ∃ es : List StatusEntry, parseDiff "" = hs ∧ parseStatus "" = es :=
  parsers_total ""

/-- C6: a line starting with the three characters `+++` is filtered by the
metadata check before any classification happens, so it never contributes
an added line (or anything else) to any hunk: the loop body leaves the
whole parser state unchanged on such a line, whether or not a hunk is
open. -/
theorem processLine_tripleplus_id (st : ParseState) (line : List Char)
    (h : startsWithL "+++".data line = true) :
    processLine st line = st := by
  unfold processLine
  rw [h]
  simp

/-- Witness for C6 at the concrete line `+++ trailer` with a hunk open. -/
theorem processLine_tripleplus_id_witness :
    startsWithL "+++".data "+++ trailer".data = true ∧
      processLine ⟨[], some ⟨5, 5, []⟩, 5, 5⟩ "+++ trailer".data = ⟨[], some ⟨5, 5, []⟩, 5, 5⟩ :=
  ⟨by decide, processLine_tripleplus_id ⟨[], some ⟨5, 5, []⟩, 5, 5⟩ "+++ trailer".data (by decide)⟩

/-- C7: a line that begins with `@@` but in which the hunk-header pattern
matches nowhere is skipped without any effect: no hunk is appended, the
open hunk (if any) stays the current one, and both line-number counters
keep their values, so the loop state is exactly unchanged. -/
theorem processLine_atat_nonmatching_id (st : ParseState) (line : List Char)
    (h1 : startsWithL "@@".data line = true) (h2 : searchHunk line = none) :
    processLine st line = st := by
  cases line with
  | nil => exact absurd h1 (by decide)
  | cons c cs =>
    have hc : c = '@' := by
      have h1x : (('@' == c) && startsWithL ['@'] cs) = true := h1
      have := (Bool.and_eq_true _ _).mp h1x
      exact (beq_iff_eq.mp this.1).symm
    subst hc
    unfold processLine
    rw [show startsWithL "diff --git".data ('@' :: cs) = false from rfl,
        show startsWithL "index ".data ('@' :: cs) = false from rfl,
        show startsWithL "---".data ('@' :: cs) = false from rfl,
        show startsWithL "+++".data ('@' :: cs) = false from rfl,
        h1, h2]
    simp

/-- Witness for C7 at the concrete line `@@ bogus` with a hunk open. -/
theorem processLine_atat_nonmatching_id_witness :
    startsWithL "@@".data "@@ bogus".data = true ∧
      searchHunk "@@ bogus".data = none ∧
      processLine ⟨[], some ⟨3, 4, []⟩, 3, 4⟩ "@@ bogus".data = ⟨[], some ⟨3, 4, []⟩, 3, 4⟩ :=
  ⟨by decide, by decide,
    processLine_atat_nonmatching_id ⟨[], some ⟨3, 4, []⟩, 3, 4⟩ "@@ bogus".data
      (by decide) (by decide)⟩

/-- C8: a hunk header with omitted counts such as `@@ -1 +1 @@` parses
successfully, opening a hunk with `oldStart = 1`, `newStart = 1` — the
same hunk a header with explicit counts and the same starts produces. -/
theorem parseDiff_omitted_counts :
    parseDiff "@@ -1 +1 @@" = [⟨1, 1, []⟩] ∧
      parseDiff "@@ -1,3 +1,4 @@" = [⟨1, 1, []⟩] := by
  decide

/-- C9: every line before the first `@@`-prefixed line is dropped
entirely: prepending any block of lines none of which starts with `@@`
does not change the parse result. -/
theorem parseDiffLines_preHunk_dropped (ls1 ls2 : List (List Char))
    (h : ∀ l ∈ ls1, startsWithL "@@".data l = false) :
    parseDiffLines (ls1 ++ ls2) = parseDiffLines ls2 := by
  unfold parseDiffLines
  rw [List.foldl_append]
  have hinit : ls1.foldl processLine initState = initState := by
    induction ls1 with
    | nil => rfl
    | cons a as ih =>
      rw [List.foldl_cons, processLine_initState_drop a (h a (by simp))]
      exact ih (fun l hl => h l (by simp [hl]))
  rw [hinit]

/-- Witness for C9: git metadata lines and a junk line before the hunk
header contribute nothing. -/
theorem parseDiffLines_preHunk_dropped_witness :
    (∀ l ∈ [("diff --git a/x b/x").data, ("index abc..def 100644").data,
        ("--- a/x").data, ("+++ b/x").data, ("junk").data],
      startsWithL "@@".data l = false) ∧
    parseDiffLines ([("diff --git a/x b/x").data, ("index abc..def 100644").data,
        ("--- a/x").data, ("+++ b/x").data, ("junk").data] ++
        [("@@ -1 +1 @@").data, ("+a").data]) =
      parseDiffLines [("@@ -1 +1 @@").data, ("+a").data] :=
  ⟨by decide,
    parseDiffLines_preHunk_dropped
      [("diff --git a/x b/x").data, ("index abc..def 100644").data,
        ("--- a/x").data, ("+++ b/x").data, ("junk").data]
      [("@@ -1 +1 @@").data, ("+a").data] (by decide)⟩

/-- Field values of the record built from a non-empty status line: the
code keeps the line's first character, the staged flag tests it against
space and `?`, and the status character falls back from the second code
character to the first. -/
theorem mkStatusEntry_fields (c0 : Char) (t : List Char) :
    ∃ c rest, (mkStatusEntry (c0 :: t)).code = String.mk (c :: rest) ∧
      ((mkStatusEntry (c0 :: t)).isStaged = true ↔ (c ≠ ' ' ∧ c ≠ '?')) ∧
      (mkStatusEntry (c0 :: t)).status =
        some (if (mkStatusEntry (c0 :: t)).isStaged then c else rest.headD c) := by
  refine ⟨c0, t.take 1, rfl, ?_, ?_⟩
  · show ((c0 != ' ') && (c0 != '?')) = true ↔ (c0 ≠ ' ' ∧ c0 ≠ '?')
    simp [Bool.and_eq_true, bne_iff_ne]
  · cases hb : (c0 != ' ') && (c0 != '?') <;> cases t <;>
      simp [mkStatusEntry, hb]

/-- C2: `parseStatus "M  file.txt\n?? new.txt\n"` yields exactly the two
records `{code := "M ", path := "file.txt", isStaged := true, status :=
'M'}` and `{code := "??", path := "new.txt", isStaged := false, status :=
'?'}` in input order; moreover every record of every `parseStatus` result
has a non-empty code whose first character decides `isStaged` (staged iff
neither space nor `?`) and whose `status` is the first character when
staged, else the second when present, else the first. -/
theorem parseStatus_example_and_shape (raw : String) (e : StatusEntry)
    (he : e ∈ parseStatus raw) :
    parseStatus "M  file.txt\n?? new.txt\n" =
      [⟨"M ", "file.txt", true, some 'M'⟩, ⟨"??", "new.txt", false, some '?'⟩] ∧
    ∃ c rest, e.code = String.mk (c :: rest) ∧
      (e.isStaged = true ↔ (c ≠ ' ' ∧ c ≠ '?')) ∧
      e.status = some (if e.isStaged then c else rest.headD c) := by
  refine ⟨by decide, ?_⟩
  unfold parseStatus at he
  split at he
  · simp at he
  · obtain ⟨l, hl, rfl⟩ := List.mem_map.mp he
    have hl2 := List.mem_filter.mp hl
    have hne : l ≠ [] := by
      intro h0
      rw [h0] at hl2
      simp at hl2
    obtain ⟨c0, t, rfl⟩ := List.exists_cons_of_ne_nil hne
    exact mkStatusEntry_fields c0 t

/-- Witness for C2 at the first record of the example input. -/
theorem parseStatus_example_and_shape_witness :
    (⟨"M ", "file.txt", true, some 'M'⟩ : StatusEntry) ∈
        parseStatus "M  file.txt\n?? new.txt\n" ∧
      (parseStatus "M  file.txt\n?? new.txt\n" =
          [⟨"M ", "file.txt", true, some 'M'⟩, ⟨"??", "new.txt", false, some '?'⟩] ∧
        ∃ c rest,
          (⟨"M ", "file.txt", true, some 'M'⟩ : StatusEntry).code = String.mk (c :: rest) ∧
          ((⟨"M ", "file.txt", true, some 'M'⟩ : StatusEntry).isStaged = true ↔
            (c ≠ ' ' ∧ c ≠ '?')) ∧
          (⟨"M ", "file.txt", true, some 'M'⟩ : StatusEntry).status =
            some (if (⟨"M ", "file.txt", true, some 'M'⟩ : StatusEntry).isStaged then c
              else rest.headD c)) :=
  ⟨by decide,
    parseStatus_example_and_shape "M  file.txt\n?? new.txt\n"
      ⟨"M ", "file.txt", true, some 'M'⟩ (by decide)⟩

/-- C3 counterexample: with `isNewFile = true`, `isDeleted = false` and
fallback content `"a\nb\n"`, the renderer emits three `added` rows, not
two — JavaScript `"a\nb\n".split('\n')` has a trailing empty piece which
becomes a third added row numbered 3. -/
theorem renderDiff_newfile_counterexample :
    (renderDiff false none true false "" "a\nb\n").countP RenderRec.isAdded = 3 ∧
      ¬ (renderDiff false none true false "" "a\nb\n").countP RenderRec.isAdded = 2 := by
  decide

/-- C3 amended: with `isNewFile = true`, `isDeleted = false` and fallback
content `"a\nb\n"`, the output is the "New file" banner followed by three
`added` rows numbered 1, 2, 3 with contents `"a"`, `"b"` and the trailing
empty piece (displayed as a single space) — identical for every diff text
passed in, since hunks are ignored on this path. -/
theorem renderDiff_newfile_amended (diff : String) :
    renderDiff false none true false diff "a\nb\n" =
      [.newFileHeader, .addedLine 1 "a", .addedLine 2 "b", .addedLine 3 " "] := rfl

/-- Witness for the amended C3 at a non-trivial diff text whose hunks the
new-file path ignores. -/
theorem renderDiff_newfile_amended_witness :
    renderDiff false none true false "@@ -1 +1 @@\n+zzz" "a\nb\n" =
      [.newFileHeader, .addedLine 1 "a", .addedLine 2 "b", .addedLine 3 " "] :=
  renderDiff_newfile_amended "@@ -1 +1 @@\n+zzz"

/-- C4 counterexample: `isDeleted = true` with a diff text that parses to
no hunks does NOT produce the deleted sentinel — the source guards the
deleted branch with `!diff` (empty diff text), so the non-empty junk text
`"x"` (zero hunks) falls through to the no-changes-to-display sentinel. -/
theorem renderDiff_deleted_counterexample :
    parseDiff "x" = [] ∧
      renderDiff false none false true "x" "" ≠ [RenderRec.deletedMsg] := by
  decide

/-- C4 amended: with `isDeleted = true`, `isNewFile = false` and EMPTY
diff text (rather than merely hunkless text), the output is the single
deleted-file sentinel, whatever the fallback content. -/
theorem renderDiff_deleted_amended (fileContent : String) :
    renderDiff false none false true "" fileContent = [.deletedMsg] := rfl

/-- Witness for the amended C4 at a concrete fallback content. -/
theorem renderDiff_deleted_amended_witness :
    renderDiff false none false true "" "k" = [.deletedMsg] :=
  renderDiff_deleted_amended "k"

/-! Double-faithful refinement of the parser's numbers, for the numbering
claim.  The definitions above model the JS numbers with exact `Nat`
arithmetic, which coincides with the IEEE-754 doubles the source actually
uses for every value below `2 ^ 53` (all realistic diffs, and every
concrete input evaluated above).  The numbering claim quantifies over all
inputs, and there the idealization is visible: a JS double increment is no
longer exact at `2 ^ 53` and beyond, and `parseInt` rounds long digit
runs.  The `Js`-suffixed definitions below repeat the parser loop with the
counters and the parsed hunk starts carried as integer-valued doubles,
with the rounding made explicit. -/

/-- An integer-valued JavaScript number as it occurs in the parser's line
counters: a nonnegative integer (representable as a double along every
reachable path), or positive infinity (`parseInt` of a huge digit run). -/
inductive JsNum where
  | num (n : Nat)
  | inf
deriving DecidableEq, Repr

/-- JavaScript `x++` on an integer-valued double.  Below `2 ^ 53` the
increment is exact.  For a representable integer `x` in `[2 ^ 53, 2 ^ 54)`
(all of which are even), `x + 1` is an exact tie between `x` and `x + 2`
and rounds to the even mantissa: back to `x` when `x % 4 = 0`, up to
`x + 2` when `x % 4 = 2`.  From `2 ^ 54` on the spacing is at least 4 and
`x + 1` rounds down to `x`.  Infinity is absorbing. -/
def jsInc : JsNum → JsNum
  | .num n =>
    if n < 2 ^ 53 then .num (n + 1)
    else if n < 2 ^ 54 ∧ n % 4 = 2 then .num (n + 2)
    else .num n
  | .inf => .inf

/-- Floor base-2 logarithm computed by structural recursion on a fuel
argument, so that it evaluates inside the kernel (`Nat.log2` of core is
defined by well-founded recursion and does not reduce there);
`log2F fuel n` agrees with `Nat.log2 n` whenever `fuel` is at least
`log2 n`, in particular at `fuel = n`. -/
def log2F : Nat → Nat → Nat
  | 0, _ => 0
  | fuel + 1, n => if 2 ≤ n then log2F fuel (n / 2) + 1 else 0

/-- Floor base-2 logarithm: `natLog2 n = Nat.log2 n` for every `n`. -/
def natLog2 (n : Nat) : Nat := log2F n n

/-- Rounding of an exact nonnegative integer to the nearest IEEE-754
double (round to nearest, ties to even), as JavaScript `parseInt` applies
to a digit run: exact below `2 ^ 53`, otherwise rounded to the nearest
multiple of the unit in the last place (`2 ^ (log2 n - 52)`), and positive
infinity when the rounded value reaches `2 ^ 1024`.  The overflow test is
reached only when `log2 n = 1023 or more`, because below that the rounded
value is at most `2 ^ 1023`; guarding on the exponent first keeps the huge
power out of every evaluation on ordinary inputs. -/
def flNat (n : Nat) : JsNum :=
  if n < 2 ^ 53 then .num n
  else
    let ulp := 2 ^ (natLog2 n - 52)
    let r := n % ulp
    let down := n - r
    let rounded :=
      if 2 * r < ulp then down
      else if ulp < 2 * r then down + ulp
      else if (down / ulp) % 2 = 0 then down else down + ulp
    if natLog2 n < 1023 then .num rounded
    else if rounded < 2 ^ 1024 then .num rounded
    else .inf

/-- One classified diff line with its line-number fields carried as the
doubles the source stores (`parseDiff` of DiffViewer.jsx, refined). -/
inductive JsDiffLine where
  | added (content : String) (newLineNum : JsNum)
  | removed (content : String) (oldLineNum : JsNum)
  | context (content : String) (oldLineNum : JsNum) (newLineNum : JsNum)
  | marker (content : String)
deriving DecidableEq, Repr

/-- One hunk with double-valued starts (refined `Hunk`). -/
structure JsHunk where
  oldStart : JsNum
  newStart : JsNum
  lines : List JsDiffLine
deriving DecidableEq, Repr

/-- The refined loop state: counters are doubles. -/
structure JsParseState where
  done : List JsHunk
  cur : Option JsHunk
  oldLineNum : JsNum
  newLineNum : JsNum
deriving DecidableEq, Repr

/-- Initial refined state: `let oldLineNum = 0`, `let newLineNum = 0`. -/
def jsInitState : JsParseState := ⟨[], none, .num 0, .num 0⟩

/-- The loop body of `parseDiff` with double semantics: identical control
flow to `processLine`, but the header starts go through `flNat`
(`parseInt` rounding; `|| 0` is the identity on the values it can see
here) and the post-increments go through `jsInc`. -/
def processLineJs (st : JsParseState) (line : List Char) : JsParseState :=
  if startsWithL "diff --git".data line || startsWithL "index ".data line
      || startsWithL "---".data line || startsWithL "+++".data line then
    st
  else if startsWithL "@@".data line then
    match searchHunk line with
    | some starts =>
      { done := st.done ++ st.cur.toList
        cur := some ⟨flNat starts.1, flNat starts.2, []⟩
        oldLineNum := flNat starts.1
        newLineNum := flNat starts.2 }
    | none => st
  else
    match st.cur with
    | none => st
    | some h =>
      if startsWithL "+".data line && !startsWithL "+++".data line then
        { st with
          cur := some { h with lines := h.lines ++ [.added (String.mk (line.drop 1)) st.newLineNum] }
          newLineNum := jsInc st.newLineNum }
      else if startsWithL "-".data line && !startsWithL "---".data line then
        { st with
          cur := some { h with lines := h.lines ++ [.removed (String.mk (line.drop 1)) st.oldLineNum] }
          oldLineNum := jsInc st.oldLineNum }
      else if startsWithL " ".data line then
        { st with
          cur := some { h with lines := h.lines ++ [.context (String.mk (line.drop 1)) st.oldLineNum st.newLineNum] }
          oldLineNum := jsInc st.oldLineNum
          newLineNum := jsInc st.newLineNum }
      else if startsWithL "\\".data line then
        { st with
          cur := some { h with lines := h.lines ++ [.marker (String.mk line)] } }
      else st

/-- Refined hunk output order, as `finishState`. -/
def finishStateJs (st : JsParseState) : List JsHunk :=
  st.done ++ st.cur.toList

/-- The refined `parseDiff` loop over a list of lines. -/
def parseDiffJsLines (ls : List (List Char)) : List JsHunk :=
  finishStateJs (ls.foldl processLineJs jsInitState)

/-- `parseDiff` of DiffViewer.jsx with double-valued numbers. -/
def parseDiffJs (s : String) : List JsHunk :=
  if s == "" then [] else parseDiffJsLines (splitLines s.data)

/-- The old-revision number a refined diff line carries, if any. -/
def lineOldNumJs : JsDiffLine → Option JsNum
  | .removed _ o => some o
  | .context _ o _ => some o
  | .added _ _ => none
  | .marker _ => none

/-- The new-revision number a refined diff line carries, if any. -/
def lineNewNumJs : JsDiffLine → Option JsNum
  | .added _ n => some n
  | .context _ _ n => some n
  | .removed _ _ => none
  | .marker _ => none

/-- `consecFromJsB a ns` holds when `ns` is exactly the finite numbers
`a, a + 1, a + 2, …` — consecutive integers from `a`. -/
def consecFromJsB : Nat → List JsNum → Bool
  | _, [] => true
  | a, x :: xs => (x == JsNum.num a) && consecFromJsB (a + 1) xs

/-- The first `k` values of the increment orbit of `x`. -/
def jsIterFrom (x : JsNum) : Nat → List JsNum
  | 0 => []
  | k + 1 => x :: jsIterFrom (jsInc x) k

/-- `k`-fold application of the double increment. -/
def jsIncIter (x : JsNum) : Nat → JsNum
  | 0 => x
  | k + 1 => jsIncIter (jsInc x) k

theorem jsIncIter_succ (x : JsNum) (k : Nat) :
    jsIncIter x (k + 1) = jsInc (jsIncIter x k) := by
  induction k generalizing x with
  | zero => rfl
  | succ k ih =>
    rw [show jsIncIter x (k + 1 + 1) = jsIncIter (jsInc x) (k + 1) from rfl, ih,
      show jsIncIter x (k + 1) = jsIncIter (jsInc x) k from rfl]

theorem jsIterFrom_append (x : JsNum) (k : Nat) :
    jsIterFrom x (k + 1) = jsIterFrom x k ++ [jsIncIter x k] := by
  induction k generalizing x with
  | zero => rfl
  | succ k ih =>
    rw [show jsIterFrom x (k + 1 + 1) = x :: jsIterFrom (jsInc x) (k + 1) from rfl,
      ih (jsInc x),
      show jsIterFrom x (k + 1) = x :: jsIterFrom (jsInc x) k from rfl]
    rfl

theorem jsIterFrom_length (x : JsNum) (k : Nat) : (jsIterFrom x k).length = k := by
  induction k generalizing x with
  | zero => rfl
  | succ k ih =>
    rw [show jsIterFrom x (k + 1) = x :: jsIterFrom (jsInc x) k from rfl,
      List.length_cons, ih]

/-- While the orbit stays below `2 ^ 53`, the double increment is exact,
so the orbit is the consecutive integers. -/
theorem consecFromJsB_iter (a k : Nat) (hk : a + k ≤ 2 ^ 53) :
    consecFromJsB a (jsIterFrom (JsNum.num a) k) = true := by
  induction k generalizing a with
  | zero => rfl
  | succ k ih =>
    have ha : a < 2 ^ 53 := by omega
    have hinc : jsInc (JsNum.num a) = JsNum.num (a + 1) := by
      show (if a < 2 ^ 53 then JsNum.num (a + 1)
        else if a < 2 ^ 54 ∧ a % 4 = 2 then JsNum.num (a + 2) else JsNum.num a) =
        JsNum.num (a + 1)
      rw [if_pos ha]
    rw [show jsIterFrom (JsNum.num a) (k + 1) =
        JsNum.num a :: jsIterFrom (jsInc (JsNum.num a)) k from rfl, hinc,
      show consecFromJsB a (JsNum.num a :: jsIterFrom (JsNum.num (a + 1)) k) =
        ((JsNum.num a == JsNum.num a) &&
          consecFromJsB (a + 1) (jsIterFrom (JsNum.num (a + 1)) k)) from rfl]
    simp only [beq_self_eq_true, Bool.true_and]
    exact ih (a + 1) (by omega)

/-- Both number lists of a refined hunk are increment orbits of its
starts: the numbers recorded are whatever the double counters held. -/
def jsHunkOrbit (h : JsHunk) : Prop :=
  (∃ k, h.lines.filterMap lineOldNumJs = jsIterFrom h.oldStart k) ∧
  (∃ k, h.lines.filterMap lineNewNumJs = jsIterFrom h.newStart k)

/-- Loop invariant of the refined parser: every closed hunk's numbers are
orbits, and for the open hunk each counter is exactly the next orbit
value. -/
def jsStateOk (st : JsParseState) : Prop :=
  (∀ h ∈ st.done, jsHunkOrbit h) ∧
  ∀ h, st.cur = some h →
    (∃ k, h.lines.filterMap lineOldNumJs = jsIterFrom h.oldStart k ∧
        st.oldLineNum = jsIncIter h.oldStart k) ∧
    (∃ k, h.lines.filterMap lineNewNumJs = jsIterFrom h.newStart k ∧
        st.newLineNum = jsIncIter h.newStart k)

theorem jsStateOk_init : jsStateOk jsInitState := by
  constructor
  · intro h hh
    simp [jsInitState] at hh
  · intro h hh
    simp [jsInitState] at hh

/-- One refined loop step preserves the invariant. -/
theorem jsStateOk_processLine (st : JsParseState) (l : List Char) (hok : jsStateOk st) :
    jsStateOk (processLineJs st l) := by
  obtain ⟨hdone, hcur⟩ := hok
  unfold processLineJs
  split
  · exact ⟨hdone, hcur⟩
  · split
    · split
      · constructor
        · intro h hh
          simp only [List.mem_append] at hh
          rcases hh with hh | hh
          · exact hdone h hh
          · cases hc : st.cur with
            | none => rw [hc] at hh; simp at hh
            | some h0 =>
              rw [hc] at hh
              simp only [Option.toList_some, List.mem_singleton] at hh
              subst hh
              obtain ⟨⟨k1, e1, _⟩, ⟨k2, e2, _⟩⟩ := hcur h hc
              exact ⟨⟨k1, e1⟩, ⟨k2, e2⟩⟩
        · intro h hh
          injection hh with hh
          subst hh
          exact ⟨⟨0, rfl, rfl⟩, ⟨0, rfl, rfl⟩⟩
      · exact ⟨hdone, hcur⟩
    · split
      · exact ⟨hdone, hcur⟩
      · rename_i h0 hc
        obtain ⟨⟨k1, e1, c1⟩, ⟨k2, e2, c2⟩⟩ := hcur h0 hc
        split
        · -- added line: the new-number orbit grows by one step
          refine ⟨hdone, ?_⟩
          intro h hh
          injection hh with hh
          subst hh
          constructor
          · refine ⟨k1, ?_, c1⟩
            show List.filterMap lineOldNumJs
                (h0.lines ++ [JsDiffLine.added (String.mk (l.drop 1)) st.newLineNum]) =
              jsIterFrom h0.oldStart k1
            rw [List.filterMap_append,
              show List.filterMap lineOldNumJs
                [JsDiffLine.added (String.mk (l.drop 1)) st.newLineNum] = [] from rfl,
              List.append_nil]
            exact e1
          · refine ⟨k2 + 1, ?_, ?_⟩
            · show List.filterMap lineNewNumJs
                  (h0.lines ++ [JsDiffLine.added (String.mk (l.drop 1)) st.newLineNum]) =
                jsIterFrom h0.newStart (k2 + 1)
              rw [List.filterMap_append,
                show List.filterMap lineNewNumJs
                  [JsDiffLine.added (String.mk (l.drop 1)) st.newLineNum] =
                  [st.newLineNum] from rfl,
                jsIterFrom_append, e2, c2]
            · show jsInc st.newLineNum = jsIncIter h0.newStart (k2 + 1)
              rw [c2, jsIncIter_succ]
        · split
          · -- removed line: the old-number orbit grows by one step
            refine ⟨hdone, ?_⟩
            intro h hh
            injection hh with hh
            subst hh
            constructor
            · refine ⟨k1 + 1, ?_, ?_⟩
              · show List.filterMap lineOldNumJs
                    (h0.lines ++ [JsDiffLine.removed (String.mk (l.drop 1)) st.oldLineNum]) =
                  jsIterFrom h0.oldStart (k1 + 1)
                rw [List.filterMap_append,
                  show List.filterMap lineOldNumJs
                    [JsDiffLine.removed (String.mk (l.drop 1)) st.oldLineNum] =
                    [st.oldLineNum] from rfl,
                  jsIterFrom_append, e1, c1]
              · show jsInc st.oldLineNum = jsIncIter h0.oldStart (k1 + 1)
                rw [c1, jsIncIter_succ]
            · refine ⟨k2, ?_, c2⟩
              show List.filterMap lineNewNumJs
                  (h0.lines ++ [JsDiffLine.removed (String.mk (l.drop 1)) st.oldLineNum]) =
                jsIterFrom h0.newStart k2
              rw [List.filterMap_append,
                show List.filterMap lineNewNumJs
                  [JsDiffLine.removed (String.mk (l.drop 1)) st.oldLineNum] = [] from rfl,
                List.append_nil]
              exact e2
          · split
            · -- context line: both orbits grow by one step
              refine ⟨hdone, ?_⟩
              intro h hh
              injection hh with hh
              subst hh
              constructor
              · refine ⟨k1 + 1, ?_, ?_⟩
                · show List.filterMap lineOldNumJs (h0.lines ++
                      [JsDiffLine.context (String.mk (l.drop 1)) st.oldLineNum st.newLineNum]) =
                    jsIterFrom h0.oldStart (k1 + 1)
                  rw [List.filterMap_append,
                    show List.filterMap lineOldNumJs
                      [JsDiffLine.context (String.mk (l.drop 1)) st.oldLineNum st.newLineNum] =
                      [st.oldLineNum] from rfl,
                    jsIterFrom_append, e1, c1]
                · show jsInc st.oldLineNum = jsIncIter h0.oldStart (k1 + 1)
                  rw [c1, jsIncIter_succ]
              · refine ⟨k2 + 1, ?_, ?_⟩
                · show List.filterMap lineNewNumJs (h0.lines ++
                      [JsDiffLine.context (String.mk (l.drop 1)) st.oldLineNum st.newLineNum]) =
                    jsIterFrom h0.newStart (k2 + 1)
                  rw [List.filterMap_append,
                    show List.filterMap lineNewNumJs
                      [JsDiffLine.context (String.mk (l.drop 1)) st.oldLineNum st.newLineNum] =
                      [st.newLineNum] from rfl,
                    jsIterFrom_append, e2, c2]
                · show jsInc st.newLineNum = jsIncIter h0.newStart (k2 + 1)
                  rw [c2, jsIncIter_succ]
            · split
              · -- marker line: neither orbit nor counter moves
                refine ⟨hdone, ?_⟩
                intro h hh
                injection hh with hh
                subst hh
                constructor
                · refine ⟨k1, ?_, c1⟩
                  show List.filterMap lineOldNumJs
                      (h0.lines ++ [JsDiffLine.marker (String.mk l)]) =
                    jsIterFrom h0.oldStart k1
                  rw [List.filterMap_append,
                    show List.filterMap lineOldNumJs [JsDiffLine.marker (String.mk l)] = []
                      from rfl,
                    List.append_nil]
                  exact e1
                · refine ⟨k2, ?_, c2⟩
                  show List.filterMap lineNewNumJs
                      (h0.lines ++ [JsDiffLine.marker (String.mk l)]) =
                    jsIterFrom h0.newStart k2
                  rw [List.filterMap_append,
                    show List.filterMap lineNewNumJs [JsDiffLine.marker (String.mk l)] = []
                      from rfl,
                    List.append_nil]
                  exact e2
              · exact ⟨hdone, hcur⟩

theorem jsStateOk_foldl (ls : List (List Char)) (st : JsParseState) (h : jsStateOk st) :
    jsStateOk (ls.foldl processLineJs st) := by
  induction ls generalizing st with
  | nil => exact h
  | cons a as ih => exact ih _ (jsStateOk_processLine st a h)

/-- Every hunk of every refined parse carries orbit number lists. -/
theorem parseDiffJs_hunk_orbit (s : String) (h : JsHunk) (hm : h ∈ parseDiffJs s) :
    jsHunkOrbit h := by
  unfold parseDiffJs at hm
  split at hm
  · simp at hm
  · unfold parseDiffJsLines finishStateJs at hm
    obtain ⟨hdone, hcur⟩ := jsStateOk_foldl (splitLines s.data) jsInitState jsStateOk_init
    rw [List.mem_append] at hm
    rcases hm with hm | hm
    · exact hdone h hm
    · cases hc : (List.foldl processLineJs jsInitState (splitLines s.data)).cur with
      | none => rw [hc] at hm; simp at hm
      | some h0 =>
        rw [hc] at hm
        simp only [Option.toList_some, List.mem_singleton] at hm
        subst hm
        obtain ⟨⟨k1, e1, _⟩, ⟨k2, e2, _⟩⟩ := hcur h hc
        exact ⟨⟨k1, e1⟩, ⟨k2, e2⟩⟩

set_option maxRecDepth 8192 in
/-- C10 counterexample: at the header `@@ -9007199254740992,4 +1,4 @@`
(old start `2 ^ 53`) followed by three context lines, the double
increment no longer advances, so the program records the old line numbers
`2 ^ 53, 2 ^ 53, 2 ^ 53` — repeated, not consecutive from `oldStart`,
refuting the claim as stated (its `i = 1` instance expects
`2 ^ 53 + 1`). -/
theorem parseDiffJs_numbering_counterexample :
    parseDiffJs "@@ -9007199254740992,4 +1,4 @@\n a\n b\n c" =
      [⟨.num 9007199254740992, .num 1,
        [.context "a" (.num 9007199254740992) (.num 1),
         .context "b" (.num 9007199254740992) (.num 2),
         .context "c" (.num 9007199254740992) (.num 3)]⟩] ∧
      consecFromJsB 9007199254740992
        ((⟨.num 9007199254740992, .num 1,
          [.context "a" (.num 9007199254740992) (.num 1),
           .context "b" (.num 9007199254740992) (.num 2),
           .context "c" (.num 9007199254740992) (.num 3)]⟩ : JsHunk).lines.filterMap
          lineOldNumJs) = false := by
  decide

/-- C10 amended: in every hunk of every refined parse whose starts are
finite with values `a` and `b`, as long as the recorded numbers stay
below `2 ^ 53` (where double increments are exact), the old line numbers
carried by removed and context lines are the consecutive integers from
`a` and the new line numbers carried by added and context lines are the
consecutive integers from `b`; marker lines carry no number and advance
neither counter. -/
theorem parseDiffJs_hunk_numbering_bounded (s : String) (h : JsHunk)
    (hm : h ∈ parseDiffJs s) (a b : Nat)
    (ha : h.oldStart = JsNum.num a) (hb : h.newStart = JsNum.num b)
    (hba : a + (h.lines.filterMap lineOldNumJs).length ≤ 2 ^ 53)
    (hbb : b + (h.lines.filterMap lineNewNumJs).length ≤ 2 ^ 53) :
    consecFromJsB a (h.lines.filterMap lineOldNumJs) = true ∧
    consecFromJsB b (h.lines.filterMap lineNewNumJs) = true := by
  obtain ⟨⟨k1, e1⟩, ⟨k2, e2⟩⟩ := parseDiffJs_hunk_orbit s h hm
  rw [ha] at e1
  rw [hb] at e2
  rw [e1] at hba ⊢
  rw [e2] at hbb ⊢
  rw [jsIterFrom_length] at hba hbb
  exact ⟨consecFromJsB_iter a k1 hba, consecFromJsB_iter b k2 hbb⟩

/-- Witness for the amended C10 on a concrete small diff. -/
theorem parseDiffJs_hunk_numbering_bounded_witness :
    ((⟨.num 5, .num 5,
        [.context "ctx" (.num 5) (.num 5), .removed "old" (.num 6),
         .added "new1" (.num 6), .added "new2" (.num 7)]⟩ : JsHunk) ∈
      parseDiffJs "@@ -5,3 +5,4 @@\n ctx\n-old\n+new1\n+new2") ∧
    (consecFromJsB 5
        ((⟨.num 5, .num 5,
          [.context "ctx" (.num 5) (.num 5), .removed "old" (.num 6),
           .added "new1" (.num 6), .added "new2" (.num 7)]⟩ : JsHunk).lines.filterMap
          lineOldNumJs) = true ∧
      consecFromJsB 5
        ((⟨.num 5, .num 5,
          [.context "ctx" (.num 5) (.num 5), .removed "old" (.num 6),
           .added "new1" (.num 6), .added "new2" (.num 7)]⟩ : JsHunk).lines.filterMap
          lineNewNumJs) = true) :=
  ⟨by decide,
    parseDiffJs_hunk_numbering_bounded "@@ -5,3 +5,4 @@\n ctx\n-old\n+new1\n+new2"
      ⟨.num 5, .num 5,
        [.context "ctx" (.num 5) (.num 5), .removed "old" (.num 6),
         .added "new1" (.num 6), .added "new2" (.num 7)]⟩
      (by decide) 5 5 rfl rfl (by decide) (by decide)⟩

end GitAgent
